import Mathlib

/-!
Verification of the resume-analysis core of the Intelligent Career Guidance
Platform.

Python strings are embedded as lists of Unicode code points (`PyStr`), with
the case maps modelled on the ASCII range (the range exercised by the skill
tables and scoring data).  Python floats are embedded as exact rationals;
every float literal appearing in the source (`0.3`, `0.8`, `0.4`, `0.08`,
`0.6`, `0.95`) is translated to the rational it denotes.  All comparisons
proved about the scoring pipeline are insensitive to this choice: they are
evaluated only at integer counts where binary floating point and exact
rational arithmetic agree.

Sources embedded here:
* `backend/app/services/ml_role_analyzer.py` (role scoring),
* `backend/app/services/resume_parser.py` (skill / experience extraction),
* `backend/app/utils/skill_normalizer.py` (skill-name normalization).
-/

/-- A Python string, as its list of code points. -/
abbrev PyStr := List Nat

/-- Code points of a Lean string literal. -/
def chars (s : String) : PyStr := s.data.map Char.toNat

/-- Python `str.lower` on one code point (ASCII range). -/
def lowerChar (n : Nat) : Nat := if 65 ≤ n ∧ n ≤ 90 then n + 32 else n

/-- Python `str.upper` on one code point (ASCII range). -/
def upperChar (n : Nat) : Nat := if 97 ≤ n ∧ n ≤ 122 then n - 32 else n

/-- A cased character (ASCII letter). -/
def isCasedChar (n : Nat) : Bool := decide ((65 ≤ n ∧ n ≤ 90) ∨ (97 ≤ n ∧ n ≤ 122))

/-- Python whitespace as stripped by `str.strip()`. -/
def isSpaceChar (n : Nat) : Bool :=
  decide (n = 32 ∨ n = 9 ∨ n = 10 ∨ n = 11 ∨ n = 12 ∨ n = 13)

/-- A regex word character (`\w` over ASCII): letter, digit or underscore. -/
def isWordChar (n : Nat) : Bool :=
  decide ((48 ≤ n ∧ n ≤ 57) ∨ (65 ≤ n ∧ n ≤ 90) ∨ (97 ≤ n ∧ n ≤ 122) ∨ n = 95)

/-- Python `str.lower`. -/
def pyLower (s : PyStr) : PyStr := s.map lowerChar

/-- Python substring containment (`needle in hay`). -/
def isSub (needle : PyStr) : PyStr → Bool
  | [] => needle.isEmpty
  | c :: rest => needle.isPrefixOf (c :: rest) || isSub needle rest

/-! ## Role scorer (`ml_role_analyzer.py`) -/

/-- The fixed equivalence groups of `MLRoleAnalyzer._are_skills_equivalent`. -/
def equivalences : List (List PyStr) :=
  [[chars (r"ci/cd"), chars (r"cicd"), chars (r"ci cd"), chars (r"continuous integration")],
   [chars (r"node.js"), chars (r"nodejs"), chars (r"node")],
   [chars (r"html/css"), chars (r"html"), chars (r"css")],
   [chars (r"rest api"), chars (r"rest"), chars (r"restful api"), chars (r"api")],
   [chars (r"kubernetes"), chars (r"k8s")],
   [chars (r"machine learning"), chars (r"ml")],
   [chars (r"deep learning"), chars (r"dl")],
   [chars (r"natural language processing"), chars (r"nlp")]]

/-- `MLRoleAnalyzer._are_skills_equivalent`: two lower-cased skill strings are
equivalent iff some fixed group contains both. -/
def areSkillsEquivalent (skill1 skill2 : PyStr) : Bool :=
  equivalences.any (fun g => g.contains skill1 && g.contains skill2)

/-- `MLRoleAnalyzer._find_skill_match`: first pass looks for an exact
case-insensitive name match; the second pass accepts substring containment in
either direction, gated by `areSkillsEquivalent`.  `none` models Python's
`None` (a missing skill). -/
def findSkillMatch (requiredSkill : PyStr) (userSkills : List (PyStr × ℚ)) : Option ℚ :=
  let requiredLower := pyLower requiredSkill
  match userSkills.find? (fun p => pyLower p.1 == requiredLower) with
  | some p => some p.2
  | none =>
    match userSkills.find? (fun p =>
        let userLower := pyLower p.1
        (isSub requiredLower userLower || isSub userLower requiredLower) &&
          areSkillsEquivalent requiredLower userLower) with
    | some p => some p.2
    | none => none

/-- The weak-match contribution of `_calculate_role_score`
(`(user_level / required_level) * required_level`). -/
def weakContribution (userLevel requiredLevel : ℚ) : ℚ :=
  (userLevel / requiredLevel) * requiredLevel

/-- The accumulators built by the loop of `_calculate_role_score`. -/
structure ScoreDetails where
  matched : List (PyStr × ℚ × ℚ)
  weak : List (PyStr × ℚ × ℚ)
  missing : List (PyStr × ℚ × ℚ)
  totalScore : ℚ
  maxPossibleScore : ℚ
deriving DecidableEq

/-- The per-skill loop of `MLRoleAnalyzer._calculate_role_score`: classifies
every required skill as matched / weak / missing and accumulates the score
numerator and denominator. -/
def scoreSkills (userSkills : List (PyStr × ℚ)) : List (PyStr × ℚ) → ScoreDetails
  | [] => ⟨[], [], [], 0, 0⟩
  | (skillName, requiredLevel) :: rest =>
    let d := scoreSkills userSkills rest
    match findSkillMatch skillName userSkills with
    | none =>
        { d with
          missing := (skillName, requiredLevel, 0) :: d.missing,
          maxPossibleScore := requiredLevel + d.maxPossibleScore }
    | some userLevel =>
        if requiredLevel ≤ userLevel then
          { d with
            matched := (skillName, requiredLevel, userLevel) :: d.matched,
            totalScore := (requiredLevel + min 1 (userLevel - requiredLevel) * (3/10)) + d.totalScore,
            maxPossibleScore := requiredLevel + d.maxPossibleScore }
        else
          { d with
            weak := (skillName, requiredLevel, userLevel) :: d.weak,
            totalScore := weakContribution userLevel requiredLevel + d.totalScore,
            maxPossibleScore := requiredLevel + d.maxPossibleScore }

/-- `MLRoleAnalyzer._apply_adjustments`: +8 when nothing is missing, +5 when
matched count reaches 80% of the requirements, −10 when more than 40% of the
requirements are missing. -/
def applyAdjustments (basePercentage : ℚ)
    (matchedCount weakCount missingCount totalRequired : Nat) : ℚ :=
  let adjusted := basePercentage
  let adjusted := if missingCount = 0 then adjusted + 8 else adjusted
  let adjusted := if (totalRequired : ℚ) * (4/5) ≤ (matchedCount : ℚ) then adjusted + 5 else adjusted
  let adjusted := if (totalRequired : ℚ) * (2/5) < (missingCount : ℚ) then adjusted - 10 else adjusted
  adjusted

/-- `MLRoleAnalyzer._calculate_role_score`: base percentage with a guarded
denominator, additive adjustments, and clipping to `[0, 100]`. -/
def calculateRoleScore (userSkills requiredSkills : List (PyStr × ℚ)) : ℚ × ScoreDetails :=
  let d := scoreSkills userSkills requiredSkills
  let percentage :=
    if 0 < d.maxPossibleScore then d.totalScore / d.maxPossibleScore * 100 else 0
  let percentage :=
    applyAdjustments percentage d.matched.length d.weak.length d.missing.length
      requiredSkills.length
  (min 100 (max 0 percentage), d)

/-! ## Claims C1, C2, C4 -/

/-- C2: for a weak match the contribution to the score numerator equals the
user's level, independent of the required level, because
`(userLevel/requiredLevel)*requiredLevel = userLevel` in exact arithmetic
whenever `0 < userLevel < requiredLevel`. -/
theorem C2_weak_contribution_is_user_level (userLevel requiredLevel : ℚ)
    (h1 : 0 < userLevel) (h2 : userLevel < requiredLevel) :
    weakContribution userLevel requiredLevel = userLevel := by
  have hr : requiredLevel ≠ 0 := ne_of_gt (h1.trans h2)
  unfold weakContribution
  field_simp

/-- C2 witness: the weak-match contribution at user level 2 against required
level 5 is exactly 2. -/
theorem C2_weak_contribution_witness :
    (0 : ℚ) < 2 ∧ (2 : ℚ) < 5 ∧ weakContribution 2 5 = 2 :=
  ⟨by norm_num, by norm_num,
    C2_weak_contribution_is_user_level 2 5 (by norm_num) (by norm_num)⟩

/-- C4: the final suitability percentage always lies in `[0, 100]` for every
profile and every role, because the scorer clips with `min(100, max(0, ·))`. -/
theorem C4_percentage_in_range (userSkills requiredSkills : List (PyStr × ℚ)) :
    0 ≤ (calculateRoleScore userSkills requiredSkills).1 ∧
      (calculateRoleScore userSkills requiredSkills).1 ≤ 100 := by
  unfold calculateRoleScore
  refine ⟨le_min (by norm_num) (le_max_left 0 _), min_le_left _ _⟩

/-- C1 counterexample: with an empty required-skill map the scorer does not
return percentage 0 — against a concrete profile it returns 13, because the
+8 (no missing skills) and +5 (matched count ≥ 0.8·0) bonuses both fire on
the guarded base of 0. -/
theorem C1_empty_role_counterexample :
    (calculateRoleScore [(chars (r"Python"), 5)] []).1 = 13 ∧
      (calculateRoleScore [(chars (r"Python"), 5)] []).1 ≠ 0 := by
  constructor
  · norm_num [calculateRoleScore, scoreSkills, applyAdjustments]
  · norm_num [calculateRoleScore, scoreSkills, applyAdjustments]

/-- C1 (amended): for a role whose required-skill map is empty, the
zero-denominator guard yields base percentage 0 (no division happens), but
the +8 and +5 bonuses then apply vacuously, so scoring returns percentage 13
for every profile. -/
theorem C1_empty_role_score (userSkills : List (PyStr × ℚ)) :
    (scoreSkills userSkills []).maxPossibleScore = 0 ∧
      (calculateRoleScore userSkills []).1 = 13 := by
  constructor
  · rfl
  · norm_num [calculateRoleScore, scoreSkills, applyAdjustments]

/-! ## Claims C5, C6, C8 -/

theorem scoreSkills_of_all_matched (users : List (PyStr × ℚ)) :
    ∀ required : List (PyStr × ℚ),
      (∀ p ∈ required, findSkillMatch p.1 users = some p.2) →
      scoreSkills users required =
        ⟨required.map (fun p => (p.1, p.2, p.2)), [], [],
         (required.map Prod.snd).sum, (required.map Prod.snd).sum⟩ := by
  intro required
  induction required with
  | nil => intro _; rfl
  | cons p rest ih =>
    intro h
    obtain ⟨s, l⟩ := p
    have hp : findSkillMatch s users = some l := h (s, l) (List.mem_cons_self _ _)
    have hrest := ih (fun q hq => h q (List.mem_cons_of_mem _ hq))
    simp only [scoreSkills, hp, hrest, if_pos (le_refl l)]
    simp only [List.map_cons, List.sum_cons, sub_self]
    rw [show min (1 : ℚ) 0 = 0 from by norm_num [min_def], zero_mul, add_zero]

theorem scoreSkills_of_all_missing (users : List (PyStr × ℚ)) :
    ∀ required : List (PyStr × ℚ),
      (∀ p ∈ required, findSkillMatch p.1 users = none) →
      scoreSkills users required =
        ⟨[], [], required.map (fun p => (p.1, p.2, 0)), 0,
         (required.map Prod.snd).sum⟩ := by
  intro required
  induction required with
  | nil => intro _; rfl
  | cons p rest ih =>
    intro h
    obtain ⟨s, l⟩ := p
    have hp : findSkillMatch s users = none := h (s, l) (List.mem_cons_self _ _)
    have hrest := ih (fun q hq => h q (List.mem_cons_of_mem _ hq))
    simp only [scoreSkills, hp, hrest, List.map_cons, List.sum_cons]

/-- C5: when every required skill of a non-empty requirement map resolves to
exactly its required level, the base percentage is 100, the +8 and +5 bonuses
fire, and clipping returns exactly 100. Required levels are positive
(integers 1–5 in the role catalog). -/
theorem C5_perfect_match_scores_100 (users required : List (PyStr × ℚ))
    (hne : required ≠ [])
    (hpos : ∀ p ∈ required, 0 < p.2)
    (hmatch : ∀ p ∈ required, findSkillMatch p.1 users = some p.2) :
    (calculateRoleScore users required).1 = 100 := by
  unfold calculateRoleScore
  rw [scoreSkills_of_all_matched users required hmatch]
  have hSpos : 0 < (required.map Prod.snd).sum := by
    apply List.sum_pos
    · intro x hx
      obtain ⟨p, hp, rfl⟩ := List.mem_map.1 hx
      exact hpos p hp
    · simpa using hne
  simp only [List.length_map, List.length_nil, Nat.cast_zero]
  rw [if_pos hSpos, div_self (ne_of_gt hSpos)]
  have hcast : (0 : ℚ) ≤ (required.length : ℚ) := Nat.cast_nonneg _
  have h4 : (required.length : ℚ) * (4/5) ≤ (required.length : ℚ) := by nlinarith
  have h5 : ¬((required.length : ℚ) * (2/5) < 0) := not_lt.mpr (by positivity)
  simp only [applyAdjustments, List.length_nil, Nat.cast_zero, if_pos h4, if_neg h5]
  norm_num [min_def, max_def]

/-- C5 witness: a profile holding Python at level 4 against a role requiring
exactly Python at level 4 scores 100. -/
theorem C5_witness :
    (calculateRoleScore [(chars (r"Python"), 4)] [(chars (r"Python"), 4)]).1 = 100 := by
  apply C5_perfect_match_scores_100
  · simp
  · rintro p hp
    simp only [List.mem_singleton] at hp
    subst hp
    norm_num
  · rintro p hp
    simp only [List.mem_singleton] at hp
    subst hp
    with_unfolding_all decide

/-- C6: when no required skill of a non-empty requirement map resolves to any
user skill, the base percentage is 0, no bonus fires, the −10 penalty fires,
and clipping returns exactly 0. -/
theorem C6_all_missing_scores_0 (users required : List (PyStr × ℚ))
    (hne : required ≠ [])
    (hmiss : ∀ p ∈ required, findSkillMatch p.1 users = none) :
    (calculateRoleScore users required).1 = 0 := by
  unfold calculateRoleScore
  rw [scoreSkills_of_all_missing users required hmiss]
  have hlen : 0 < required.length := List.length_pos.2 hne
  have hcast : (1 : ℚ) ≤ (required.length : ℚ) := by exact_mod_cast hlen
  simp only [List.length_map, List.length_nil, Nat.cast_zero]
  have hbase : (if 0 < (required.map Prod.snd).sum
      then 0 / (required.map Prod.snd).sum * 100 else 0) = (0 : ℚ) := by
    split <;> simp
  rw [hbase]
  have h4 : ¬(required.length = 0) := by omega
  have h5 : ¬((required.length : ℚ) * (4/5) ≤ 0) := by push_neg; nlinarith
  have h6 : (required.length : ℚ) * (2/5) < (required.length : ℚ) := by nlinarith
  simp only [applyAdjustments, List.length_map, List.length_nil, Nat.cast_zero,
    if_neg h4, if_neg h5, if_pos h6]
  norm_num [min_def, max_def]

/-- C6 witness: an empty profile against a role requiring Python at level 4
scores 0. -/
theorem C6_witness :
    (calculateRoleScore [] [(chars (r"Python"), 4)]).1 = 0 := by
  apply C6_all_missing_scores_0
  · simp
  · rintro p hp
    simp only [List.mem_singleton] at hp
    subst hp
    with_unfolding_all decide

/-- C8: when no exact case-insensitive match exists, a required skill
resolves via substring containment only when the two lower-cased strings sit
in one of the fixed equivalence groups; otherwise `findSkillMatch` returns
`none` and the skill is classified missing. -/
theorem C8_substring_gated_by_groups (required : PyStr) (users : List (PyStr × ℚ))
    (hexact : ∀ p ∈ users, pyLower p.1 ≠ pyLower required) :
    (findSkillMatch required users = none ↔
      ∀ p ∈ users,
        ¬(((isSub (pyLower required) (pyLower p.1) || isSub (pyLower p.1) (pyLower required)) &&
            areSkillsEquivalent (pyLower required) (pyLower p.1)) = true)) := by
  have h1 : users.find? (fun p => pyLower p.1 == pyLower required) = none := by
    apply List.find?_eq_none.mpr
    intro p hp
    simpa [beq_iff_eq] using hexact p hp
  unfold findSkillMatch
  simp only [h1]
  cases hf2 : users.find? (fun p =>
      (isSub (pyLower required) (pyLower p.1) || isSub (pyLower p.1) (pyLower required)) &&
        areSkillsEquivalent (pyLower required) (pyLower p.1)) with
  | none =>
    simp only [iff_true_intro (List.find?_eq_none.mp hf2)]
  | some p =>
    have hmem := List.mem_of_find?_eq_some hf2
    have hcond := List.find?_some hf2
    simp only [Option.some_ne_none, false_iff]
    push_neg
    exact ⟨p, hmem, by simpa using hcond⟩

/-- C8 witness: "Java" against a profile holding only "JavaScript" is missing
despite substring containment, because the two are in no equivalence group. -/
theorem C8_witness :
    findSkillMatch (chars (r"Java")) [(chars (r"JavaScript"), 4)] = none :=
  (C8_substring_gated_by_groups (chars (r"Java")) [(chars (r"JavaScript"), 4)]
      (by decide)).mpr (by decide)

/-! ## Resume parser: skill extraction (`resume_parser.py`)

`_estimate_proficiency` collects every match of the regex
`.{0,50}skill.{0,50}` over the lowered text (`re.findall`: non-overlapping,
left to right, with the bounded `.{0,50}` quantifiers greedy and `.` not
matching a newline), joins the matches with spaces and scans the result for
tier keywords in strict priority order. -/

/-- The expert-tier keywords of `_estimate_proficiency`. -/
def expertKeywords : List PyStr :=
  [chars (r"expert"), chars (r"expertise"), chars (r"mastery"), chars (r"master"),
   chars (r"architect"), chars (r"lead"), chars (r"5+ years"), chars (r"6 years"),
   chars (r"7 years"), chars (r"8 years"), chars (r"10 years")]

/-- The advanced-tier keywords of `_estimate_proficiency`. -/
def advancedKeywords : List PyStr :=
  [chars (r"advanced"), chars (r"senior"), chars (r"proficient"), chars (r"3 years"),
   chars (r"4 years"), chars (r"5 years"), chars (r"extensive"), chars (r"strong"),
   chars (r"deep knowledge")]

/-- The intermediate-tier keywords of `_estimate_proficiency`. -/
def intermediateKeywords : List PyStr :=
  [chars (r"intermediate"), chars (r"experienced"), chars (r"2 years"), chars (r"3 years"),
   chars (r"working knowledge"), chars (r"hands-on"), chars (r"practical")]

/-- The beginner-tier keywords of `_estimate_proficiency`. -/
def beginnerKeywords : List PyStr :=
  [chars (r"beginner"), chars (r"basic"), chars (r"familiar"), chars (r"exposure"),
   chars (r"1 year"), chars (r"some experience"), chars (r"introduced")]

/-- The novice-tier keywords of `_estimate_proficiency`. -/
def noviceKeywords : List PyStr :=
  [chars (r"learning"), chars (r"studied"), chars (r"coursework"), chars (r"academic"),
   chars (r"theory")]

/-- Does `skill` occur literally at position `i` of `text`? -/
def occursAt (text skill : PyStr) (i : Nat) : Bool := skill.isPrefixOf (text.drop i)

/-- No newline among the `j` characters of `text` starting at position `s`
(the regex `.` does not match a newline). -/
def noNewline (text : PyStr) (s j : Nat) : Bool :=
  ((text.drop s).take j).all (fun c => c ≠ 10)

/-- Width taken by the leading greedy `.{0,50}` of a match attempt at
position `s`: the largest `j ≤ bound` such that `skill` occurs at `s + j`
and the `j` skipped characters contain no newline (the greedy quantifier
backtracks from the widest feasible width). -/
def bestPrefixWidth (text skill : PyStr) (s : Nat) : Nat → Option Nat
  | 0 => if occursAt text skill s then some 0 else none
  | j + 1 =>
    if noNewline text s (j+1) && occursAt text skill (s + (j+1)) then some (j+1)
    else bestPrefixWidth text skill s j

/-- Width taken by the trailing greedy `.{0,50}` after the literal ends at
position `e`: up to 50 characters, stopping at a newline or the end. -/
def tailWidth (text : PyStr) (e : Nat) : Nat :=
  (((text.drop e).take 50).takeWhile (fun c => c ≠ 10)).length

/-- The substring `text[a:b]`. -/
def extract (text : PyStr) (a b : Nat) : PyStr := (text.drop a).take (b - a)

/-- The scan loop of `re.findall(r'.{0,50}skill.{0,50}', text)`: try each
start position in order, emit the greedy match found there, and resume after
its end (matches do not overlap).  `fuel` bounds the recursion; since the
skills scanned for are non-empty, `text.length + 1` is enough fuel to reach
the end of the text. -/
def findContextsAux (text skill : PyStr) : Nat → Nat → List PyStr
  | 0, _ => []
  | fuel + 1, p =>
    if p ≤ text.length then
      match bestPrefixWidth text skill p 50 with
      | some j =>
        extract text p (p + j + skill.length + tailWidth text (p + j + skill.length)) ::
          findContextsAux text skill fuel
            (p + j + skill.length + tailWidth text (p + j + skill.length))
      | none => findContextsAux text skill fuel (p + 1)
    else []

/-- All matches of `.{0,50}skill.{0,50}` in `text`, in scan order. -/
def findContexts (text skill : PyStr) : List PyStr :=
  findContextsAux text skill (text.length + 1) 0

/-- Python `' '.join(matches)`. -/
def joinContexts : List PyStr → PyStr
  | [] => []
  | m :: rest => if rest.isEmpty then m else m ++ 32 :: joinContexts rest

/-- The joined context string scanned for tier keywords. -/
def contextOf (text skill : PyStr) : PyStr := joinContexts (findContexts text skill)

/-- `any(keyword in context for keyword in keywords)`. -/
def anyKeyword (keywords : List PyStr) (context : PyStr) : Bool :=
  keywords.any (fun k => isSub k context)

/-- `ResumeParser._estimate_proficiency`: 2.5 when the context pattern finds
nothing, otherwise the first tier (expert 5.0, advanced 4.2, intermediate
3.5, beginner 2.5, novice 1.5) whose keyword list intersects the joined
context, defaulting to 3.0. -/
def estimateProficiency (text skill : PyStr) : ℚ :=
  if (findContexts (pyLower text) (pyLower skill)).isEmpty then 5/2
  else if anyKeyword expertKeywords (contextOf (pyLower text) (pyLower skill)) then 5
  else if anyKeyword advancedKeywords (contextOf (pyLower text) (pyLower skill)) then 21/5
  else if anyKeyword intermediateKeywords (contextOf (pyLower text) (pyLower skill)) then 7/2
  else if anyKeyword beginnerKeywords (contextOf (pyLower text) (pyLower skill)) then 5/2
  else if anyKeyword noviceKeywords (contextOf (pyLower text) (pyLower skill)) then 3/2
  else 3

/-- Is the character at position `i` (if any) a word character? -/
def isWordAt (text : PyStr) (i : Nat) : Bool :=
  match text[i]? with
  | some c => isWordChar c
  | none => false

/-- Regex `\b` at position `i`: the word-ness of the characters on the two
sides differs (out of bounds counts as non-word). -/
def atWordBoundary (text : PyStr) (i : Nat) : Bool :=
  if i = 0 then isWordAt text 0 else isWordAt text (i-1) != isWordAt text i

/-- Number of whole-word occurrences found by
`re.findall(r'\b' + re.escape(skill) + r'\b', text)`.  For skills whose
boundary-delimited occurrences cannot overlap (every catalog skill, whose
first and last characters are word characters), the positional count equals
the non-overlapping `findall` count. -/
def countWordMatches (text skill : PyStr) : Nat :=
  (List.range (text.length + 1)).countP
    (fun i => occursAt text skill i && atWordBoundary text i &&
      atWordBoundary text (i + skill.length))

/-- Python `round(q, 1)`.  Python rounds half to even on binary floats;
every value rounded in this development is exact at one decimal, where both
conventions agree with `⌊10q + 1/2⌋ / 10`. -/
def pyRound1 (q : ℚ) : ℚ := (⌊q * 10 + 1/2⌋ : ℚ) / 10

/-- Python `round(q, 2)`, under the same convention as `pyRound1`. -/
def pyRound2 (q : ℚ) : ℚ := (⌊q * 100 + 1/2⌋ : ℚ) / 100

/-- One extracted skill entry of `_extract_skills`. -/
structure Skill where
  name : PyStr
  proficiency_score : ℚ
  confidence : ℚ
deriving DecidableEq

/-- One iteration of the loop of `ResumeParser._extract_skills` for a single
catalog skill: when the skill has a whole-word, case-insensitive occurrence
in the text, emit a `Skill` with the estimated proficiency (rounded to one
decimal) and the mention-count confidence `min(0.95, 0.6 + mentions*0.08)`
(rounded to two decimals). -/
def extractSkill (text skill : PyStr) : Option Skill :=
  let m := countWordMatches (pyLower text) (pyLower skill)
  if m = 0 then none
  else some ⟨skill, pyRound1 (estimateProficiency text skill),
    pyRound2 (min (19/20) (3/5 + (m : ℚ) * (2/25)))⟩

/-- The catalog skill name used in the concrete C7 evaluations. -/
def pythonS : PyStr := chars (r"Python")

/-- A resume text containing "Expert in Python" and exactly three whole-word
mentions of "Python", laid out so that the second context match's greedy
50-character tail ends inside the word "Expert": the joined context then
contains "exp" and "ert in python" but never "expert". -/
def cxText : PyStr :=
  chars (r"Python zq zq zq zq zq zq zq zq zq zq zq zq zq zq zq zq zq w Python zq zq zq zq zq zq zq zq zq zq zq zq zq zq zq wExpert in Python")

/-- A resume text containing "Expert in Python" and exactly three whole-word
mentions of "Python" for which the expert tier does fire. -/
def exText : PyStr := chars (r"Expert in Python. Python. Python.")

/-! ## Claims C7, C10 -/

set_option maxRecDepth 1000000 in
/-- C7 counterexample: `cxText` contains the phrase "Expert in Python" and
exactly 3 whole-word mentions of "Python", yet extraction emits the Python
skill with proficiency 3.0 (the default tier), not 5.0: the non-overlapping
context windows split the word "expert", so no expert keyword survives in
the joined context.  Confidence is 0.84 as predicted. -/
theorem C7_counterexample :
    isSub (chars (r"expert in python")) (pyLower cxText) = true ∧
      countWordMatches (pyLower cxText) (pyLower pythonS) = 3 ∧
      extractSkill cxText pythonS = some ⟨pythonS, 3, 21/25⟩ ∧
      (3 : ℚ) ≠ 5 := by
  refine ⟨by decide, by decide, by with_unfolding_all decide, by norm_num⟩

/-- C7 (amended): for any text with exactly 3 whole-word mentions of
"Python" the emitted Python skill has confidence 0.84; the proficiency-5.0
part of the claim holds for texts where an expert keyword survives in the
joined context windows — in particular for `exText` — but not for every text
containing "Expert in Python" (see the counterexample). -/
theorem C7_expert_python_example (text : PyStr)
    (h : countWordMatches (pyLower text) (pyLower pythonS) = 3) :
    (extractSkill text pythonS).map Skill.confidence = some (21/25) ∧
      extractSkill exText pythonS = some ⟨pythonS, 5, 21/25⟩ := by
  constructor
  · simp only [extractSkill, h]
    norm_num [pyRound2, min_def]
  · with_unfolding_all decide

/-- C7 witness: the amended claim applied to `exText` itself. -/
theorem C7_expert_python_witness :
    (extractSkill exText pythonS).map Skill.confidence = some (21/25) :=
  (C7_expert_python_example exText (by decide)).1

theorem confidence_value_set (m : Nat) (hm : m ≠ 0) :
    pyRound2 (min (19/20) (3/5 + (m : ℚ) * (2/25))) ∈
      ([17/25, 19/25, 21/25, 23/25, 19/20] : List ℚ) := by
  match m, hm with
  | 1, _ => simp only [List.mem_cons]; norm_num [pyRound2, min_def]
  | 2, _ => simp only [List.mem_cons]; norm_num [pyRound2, min_def]
  | 3, _ => simp only [List.mem_cons]; norm_num [pyRound2, min_def]
  | 4, _ => simp only [List.mem_cons]; norm_num [pyRound2, min_def]
  | (n + 5), _ =>
    have h1 : (19/20 : ℚ) ≤ 3/5 + ((n + 5 : Nat) : ℚ) * (2/25) := by
      push_cast
      nlinarith [Nat.cast_nonneg (α := ℚ) n]
    rw [min_eq_left h1]
    simp only [List.mem_cons]
    norm_num [pyRound2]

theorem proficiency_value_set (text skill : PyStr) :
    pyRound1 (estimateProficiency text skill) ∈
      ([3/2, 5/2, 3, 7/2, 21/5, 5] : List ℚ) := by
  unfold estimateProficiency
  split
  · simp only [List.mem_cons]; norm_num [pyRound1]
  split
  · simp only [List.mem_cons]; norm_num [pyRound1]
  split
  · simp only [List.mem_cons]; norm_num [pyRound1]
  split
  · simp only [List.mem_cons]; norm_num [pyRound1]
  split
  · simp only [List.mem_cons]; norm_num [pyRound1]
  split
  · simp only [List.mem_cons]; norm_num [pyRound1]
  · simp only [List.mem_cons]; norm_num [pyRound1]

/-- C10: every skill emitted by extraction has confidence in
{0.68, 0.76, 0.84, 0.92, 0.95} (so in particular at least 0.68) and
proficiency in {1.5, 2.5, 3.0, 3.5, 4.2, 5.0}. -/
theorem C10_skill_value_sets (text skill : PyStr) (sk : Skill)
    (h : extractSkill text skill = some sk) :
    sk.confidence ∈ ([17/25, 19/25, 21/25, 23/25, 19/20] : List ℚ) ∧
      sk.proficiency_score ∈ ([3/2, 5/2, 3, 7/2, 21/5, 5] : List ℚ) := by
  simp only [extractSkill] at h
  by_cases hm : countWordMatches (pyLower text) (pyLower skill) = 0
  · rw [if_pos hm] at h
    exact absurd h (by simp)
  · rw [if_neg hm] at h
    injection h with h
    subst h
    exact ⟨confidence_value_set _ hm, proficiency_value_set text skill⟩

set_option maxRecDepth 1000000 in
/-- C10 witness: the Python skill extracted from `exText` has confidence
0.84 and proficiency 5.0, both inside the finite value sets. -/
theorem C10_witness :
    (⟨pythonS, 5, 21/25⟩ : Skill).confidence ∈
        ([17/25, 19/25, 21/25, 23/25, 19/20] : List ℚ) ∧
      (⟨pythonS, 5, 21/25⟩ : Skill).proficiency_score ∈
        ([3/2, 5/2, 3, 7/2, 21/5, 5] : List ℚ) :=
  C10_skill_value_sets exText pythonS ⟨pythonS, 5, 21/25⟩
    (by with_unfolding_all decide)

/-! ## Resume parser: experience cleanup, dedup and truncation

`_extract_experience` pools raw (position, company, duration) entries from
an ordered cascade of regex templates over the text, then cleans, filters,
deduplicates and truncates the pool.  The pooling is regex harvesting over
the text; the final stage below is embedded exactly, and the properties
proved about it hold for every pooled list, hence for every input text. -/

/-- One pooled experience entry. -/
structure ExpEntry where
  position : PyStr
  company : PyStr
  duration : PyStr
deriving DecidableEq

/-- Python `s.strip()`. -/
def pyStrip (s : PyStr) : PyStr := (s.dropWhile isSpaceChar).rdropWhile isSpaceChar

/-- Python `re.sub(r'[,.\s|]+$', '', s)`: drop the maximal trailing run of
commas, periods, whitespace and pipes. -/
def stripTrailingPunct (s : PyStr) : PyStr :=
  s.rdropWhile (fun c => c == 44 || c == 46 || c == 124 || isSpaceChar c)

/-- Python `re.sub(r'\s+', ' ', s)`: collapse every whitespace run to one
space. -/
def collapseWs : PyStr → PyStr
  | [] => []
  | c :: rest =>
    if isSpaceChar c then 32 :: collapseWs (rest.dropWhile isSpaceChar)
    else c :: collapseWs rest
termination_by l => l.length
decreasing_by
  · simp only [List.length_cons]
    have := (List.dropWhile_sublist (l := rest) isSpaceChar).length_le
    omega
  · simp only [List.length_cons]
    omega

/-- A lowercase ASCII letter. -/
def isLowerChar (n : Nat) : Bool := decide (97 ≤ n ∧ n ≤ 122)

/-- Python `s.isupper()` (ASCII model): at least one cased character and no
lowercase one. -/
def isUpperStr (s : PyStr) : Bool := s.any isCasedChar && s.all (fun c => !isLowerChar c)

/-- The cleanup applied to each pooled entry before filtering: trailing
punctuation stripped from the company, whitespace collapsed and stripped in
company and position. -/
def cleanExpEntry (e : ExpEntry) : ExpEntry :=
  { position := pyStrip (collapseWs e.position),
    company := pyStrip (collapseWs (stripTrailingPunct e.company)),
    duration := e.duration }

/-- The deduplication key: the lower-cased (position, company) pair. -/
def expKey (e : ExpEntry) : PyStr × PyStr := (pyLower e.position, pyLower e.company)

/-- The dedup loop of `_extract_experience`: clean each entry, skip entries
whose company or position is implausibly short, skip short all-uppercase
companies (location codes), and keep the first entry of each key. -/
def uniqueExperiencesAux : List ExpEntry → List (PyStr × PyStr) → List ExpEntry
  | [], _ => []
  | e :: rest, seen =>
    let e1 := cleanExpEntry e
    if e1.company.length < 2 ∨ e1.position.length < 5 then
      uniqueExperiencesAux rest seen
    else if isUpperStr e1.company ∧ e1.company.length < 10 then
      uniqueExperiencesAux rest seen
    else if expKey e1 ∈ seen then
      uniqueExperiencesAux rest seen
    else
      e1 :: uniqueExperiencesAux rest (expKey e1 :: seen)

/-- The final stage of `ResumeParser._extract_experience`: dedup in
discovery order, then return the first 5 surviving entries. -/
def uniqueExperiences (pooled : List ExpEntry) : List ExpEntry :=
  (uniqueExperiencesAux pooled []).take 5

theorem uniqueExperiencesAux_spec (l : List ExpEntry) :
    ∀ seen : List (PyStr × PyStr),
      (∀ e ∈ uniqueExperiencesAux l seen, expKey e ∉ seen) ∧
        (uniqueExperiencesAux l seen).Pairwise (fun a b => expKey a ≠ expKey b) := by
  induction l with
  | nil => intro seen; simp [uniqueExperiencesAux]
  | cons e rest ih =>
    intro seen
    simp only [uniqueExperiencesAux]
    split
    · exact ih seen
    split
    · exact ih seen
    split
    · exact ih seen
    · rename_i hnew
      obtain ⟨h1, h2⟩ := ih (expKey (cleanExpEntry e) :: seen)
      constructor
      · intro x hx
        rcases List.mem_cons.1 hx with rfl | hx
        · exact hnew
        · exact fun hmem => h1 x hx (List.mem_cons_of_mem _ hmem)
      · refine List.Pairwise.cons ?_ h2
        intro b hb
        have := h1 b hb
        intro hkey
        exact this (hkey ▸ List.mem_cons_self _ _)

/-- C9: the returned experience list always has at most 5 entries, and the
surviving entries have pairwise-distinct lower-cased (position, company)
keys — duplicates are removed, keeping the first in discovery order. -/
theorem C9_experience_dedup_and_cap (pooled : List ExpEntry) :
    (uniqueExperiences pooled).length ≤ 5 ∧
      (uniqueExperiences pooled).Pairwise (fun a b => expKey a ≠ expKey b) := by
  constructor
  · exact List.length_take_le 5 _
  · exact ((uniqueExperiencesAux_spec pooled []).2).sublist (List.take_sublist 5 _)

/-! ## Skill normalizer (`skill_normalizer.py`) -/

/-- One step of Python `str.title`: a cased character is uppercased when the
previous character was not cased, lowercased otherwise. -/
def titleChar (prevCased : Bool) (c : Nat) : Nat :=
  if isCasedChar c then (if prevCased then lowerChar c else upperChar c) else c

/-- The stateful traversal behind Python `str.title`. -/
def titleMap (prevCased : Bool) : PyStr → PyStr
  | [] => []
  | c :: rest => titleChar prevCased c :: titleMap (isCasedChar c) rest

/-- Python `str.title`. -/
def pyTitle (s : PyStr) : PyStr := titleMap false s

/-- Modelled from the spec: the synonym table
`data/skills/skill_synonyms.json` is data missing from src/ — only the
loader of `SkillNormalizer.__init__` is present, which builds a reverse map
sending each lower-cased canonical name to itself and each lower-cased
synonym to its canonical name (spec §4.1).  This concrete reverse map is
reconstructed from the canonical names and synonyms named in the spec and in
the module's own test list; each raw string has one canonical target and
every canonical maps to itself, as the spec's data-model invariant states. -/
def reverseMap : List (PyStr × PyStr) :=
  [(chars (r"python"), chars (r"Python")),
   (chars (r"sql"), chars (r"SQL")),
   (chars (r"aws"), chars (r"AWS")),
   (chars (r"amazon web services"), chars (r"AWS")),
   (chars (r"node.js"), chars (r"Node.js")),
   (chars (r"nodejs"), chars (r"Node.js")),
   (chars (r"node"), chars (r"Node.js")),
   (chars (r"react"), chars (r"React")),
   (chars (r"reactjs"), chars (r"React")),
   (chars (r"react.js"), chars (r"React")),
   (chars (r"kubernetes"), chars (r"Kubernetes")),
   (chars (r"k8s"), chars (r"Kubernetes")),
   (chars (r"ci/cd"), chars (r"CI/CD")),
   (chars (r"ci cd"), chars (r"CI/CD")),
   (chars (r"cicd"), chars (r"CI/CD")),
   (chars (r"continuous integration"), chars (r"CI/CD")),
   (chars (r"machine learning"), chars (r"Machine Learning")),
   (chars (r"ml"), chars (r"Machine Learning")),
   (chars (r"deep learning"), chars (r"Deep Learning")),
   (chars (r"dl"), chars (r"Deep Learning")),
   (chars (r"natural language processing"), chars (r"Natural Language Processing")),
   (chars (r"nlp"), chars (r"Natural Language Processing")),
   (chars (r"html/css"), chars (r"HTML/CSS")),
   (chars (r"rest api"), chars (r"REST API")),
   (chars (r"docker"), chars (r"Docker"))]

/-- Python `self.reverse_map.get(key)`. -/
def lookupCanonical (key : PyStr) : Option PyStr :=
  (reverseMap.find? (fun p => p.1 == key)).map (fun p => p.2)

/-- The ordered substring heuristics of `SkillNormalizer.normalize`,
returning the canonical name of the first rule matching the lower-cased
cleaned input, if any. -/
def heuristicRules (cl : PyStr) : Option PyStr :=
  if isSub (chars (r"node")) cl && isSub (chars (r"js")) cl then some (chars (r"Node.js"))
  else if isSub (chars (r"react")) cl then some (chars (r"React"))
  else if isSub (chars (r"ci")) cl && isSub (chars (r"cd")) cl then some (chars (r"CI/CD"))
  else if isSub (chars (r"html")) cl && isSub (chars (r"css")) cl then some (chars (r"HTML/CSS"))
  else if isSub (chars (r"machine")) cl && isSub (chars (r"learning")) cl then
    some (chars (r"Machine Learning"))
  else if isSub (chars (r"deep")) cl && isSub (chars (r"learning")) cl then
    some (chars (r"Deep Learning"))
  else if isSub (chars (r"natural")) cl && isSub (chars (r"language")) cl then
    some (chars (r"Natural Language Processing"))
  else if isSub (chars (r"rest")) cl && isSub (chars (r"api")) cl then
    some (chars (r"REST API"))
  else none

/-- `SkillNormalizer.normalize`: strip the input, try the exact
case-insensitive reverse-map lookup, then the substring heuristics, and fall
back to the title-cased cleaned input. -/
def SkillNormalizer.normalize (skillName : PyStr) : PyStr :=
  match lookupCanonical (pyLower (pyStrip skillName)) with
  | some canonical => canonical
  | none =>
    match heuristicRules (pyLower (pyStrip skillName)) with
    | some canonical => canonical
    | none => pyTitle (pyStrip skillName)

/-! ### Toward C3: character-level case lemmas -/

theorem lowerChar_lowerChar (n : Nat) : lowerChar (lowerChar n) = lowerChar n := by
  unfold lowerChar
  repeat' split
  all_goals omega

theorem lowerChar_upperChar (n : Nat) : lowerChar (upperChar n) = lowerChar n := by
  unfold lowerChar upperChar
  repeat' split
  all_goals omega

theorem upperChar_upperChar (n : Nat) : upperChar (upperChar n) = upperChar n := by
  unfold upperChar
  repeat' split
  all_goals omega

theorem isCased_lowerChar (n : Nat) : isCasedChar (lowerChar n) = isCasedChar n := by
  unfold lowerChar isCasedChar
  split <;> (rw [decide_eq_decide] <;> omega)

theorem isCased_upperChar (n : Nat) : isCasedChar (upperChar n) = isCasedChar n := by
  unfold upperChar isCasedChar
  split <;> (rw [decide_eq_decide] <;> omega)

theorem isSpace_lowerChar (n : Nat) : isSpaceChar (lowerChar n) = isSpaceChar n := by
  unfold lowerChar isSpaceChar
  split <;> (rw [decide_eq_decide] <;> omega)

theorem isSpace_upperChar (n : Nat) : isSpaceChar (upperChar n) = isSpaceChar n := by
  unfold upperChar isSpaceChar
  split <;> (rw [decide_eq_decide] <;> omega)

theorem lowerChar_titleChar (b : Bool) (c : Nat) :
    lowerChar (titleChar b c) = lowerChar c := by
  unfold titleChar
  split
  · split
    · exact lowerChar_lowerChar c
    · exact lowerChar_upperChar c
  · rfl

theorem isSpace_titleChar (b : Bool) (c : Nat) :
    isSpaceChar (titleChar b c) = isSpaceChar c := by
  unfold titleChar
  split
  · split
    · exact isSpace_lowerChar c
    · exact isSpace_upperChar c
  · rfl

theorem isCased_titleChar (b : Bool) (c : Nat) :
    isCasedChar (titleChar b c) = isCasedChar c := by
  unfold titleChar
  split
  · split
    · exact isCased_lowerChar c
    · exact isCased_upperChar c
  · rfl

theorem titleChar_titleChar (b : Bool) (c : Nat) :
    titleChar b (titleChar b c) = titleChar b c := by
  by_cases hc : isCasedChar c = true
  · cases b
    · rw [show titleChar false c = upperChar c from by rw [titleChar, if_pos hc]; rfl]
      rw [titleChar, if_pos (by rw [isCased_upperChar]; exact hc)]
      exact upperChar_upperChar c
    · rw [show titleChar true c = lowerChar c from by rw [titleChar, if_pos hc]; rfl]
      rw [titleChar, if_pos (by rw [isCased_lowerChar]; exact hc)]
      exact lowerChar_lowerChar c
  · rw [show titleChar b c = c from by rw [titleChar, if_neg hc]]
    rw [titleChar, if_neg hc]

/-! ### Toward C3: list-level title and strip lemmas -/

theorem pyLower_titleMap (s : PyStr) : ∀ b, pyLower (titleMap b s) = pyLower s := by
  induction s with
  | nil => intro _; rfl
  | cons c t ih =>
    intro b
    simp only [titleMap, pyLower, List.map_cons]
    rw [lowerChar_titleChar]
    have := ih (isCasedChar c)
    simp only [pyLower] at this
    rw [this]

theorem titleMap_titleMap (s : PyStr) : ∀ b, titleMap b (titleMap b s) = titleMap b s := by
  induction s with
  | nil => intro _; rfl
  | cons c t ih =>
    intro b
    simp only [titleMap]
    congr 1
    · exact titleChar_titleChar b c
    · rw [isCased_titleChar]
      exact ih (isCasedChar c)

theorem titleMap_head?_space (b : Bool) (s : PyStr) :
    ((titleMap b s).head?).map isSpaceChar = (s.head?).map isSpaceChar := by
  cases s with
  | nil => rfl
  | cons c t => simp [titleMap, isSpace_titleChar]

theorem titleMap_getLast?_space : ∀ (s : PyStr) (b : Bool),
    ((titleMap b s).getLast?).map isSpaceChar = (s.getLast?).map isSpaceChar
  | [], _ => rfl
  | [c], b => by simp [titleMap, isSpace_titleChar]
  | c :: d :: t, b => by
    have ih := titleMap_getLast?_space (d :: t) (isCasedChar c)
    simp only [titleMap] at ih ⊢
    simpa only [List.getLast?_cons_cons] using ih

/-- No leading and no trailing whitespace. -/
def NoEdgeSpace (s : PyStr) : Prop :=
  (s.head?).map isSpaceChar ≠ some true ∧ (s.getLast?).map isSpaceChar ≠ some true

theorem noEdgeSpace_titleMap (b : Bool) (s : PyStr) (h : NoEdgeSpace s) :
    NoEdgeSpace (titleMap b s) := by
  obtain ⟨h1, h2⟩ := h
  constructor
  · rw [titleMap_head?_space]
    exact h1
  · rw [titleMap_getLast?_space]
    exact h2

theorem dropWhile_head?_not (p : Nat → Bool) : ∀ (l : PyStr) (c : Nat),
    (l.dropWhile p).head? = some c → p c = false
  | [], c => by
    intro h
    simp at h
  | a :: t, c => by
    intro h
    rw [List.dropWhile_cons] at h
    split at h
    · exact dropWhile_head?_not p t c h
    · rename_i hpa
      rw [List.head?_cons] at h
      injection h with h
      subst h
      simpa using hpa

theorem head?_of_prefix {l1 l2 : PyStr} (h : l1 <+: l2) {c : Nat}
    (hc : l1.head? = some c) : l2.head? = some c := by
  obtain ⟨t, rfl⟩ := h
  cases l1 with
  | nil => cases hc
  | cons a t1 =>
    rw [List.cons_append, List.head?_cons]
    rw [List.head?_cons] at hc
    exact hc

theorem noEdgeSpace_pyStrip (x : PyStr) : NoEdgeSpace (pyStrip x) := by
  unfold pyStrip
  constructor
  · intro hcontra
    cases hh : ((x.dropWhile isSpaceChar).rdropWhile isSpaceChar).head? with
    | none => rw [hh] at hcontra; simp at hcontra
    | some c =>
      rw [hh] at hcontra
      have hc : isSpaceChar c = true := by simpa using hcontra
      have hpre : (x.dropWhile isSpaceChar).rdropWhile isSpaceChar <+: x.dropWhile isSpaceChar :=
        List.rdropWhile_prefix _ _
      have hhead := head?_of_prefix hpre hh
      have hfalse := dropWhile_head?_not isSpaceChar x c hhead
      rw [hfalse] at hc
      cases hc
  · intro hcontra
    cases hh : ((x.dropWhile isSpaceChar).rdropWhile isSpaceChar).getLast? with
    | none => rw [hh] at hcontra; simp at hcontra
    | some c =>
      rw [hh] at hcontra
      have hc : isSpaceChar c = true := by simpa using hcontra
      have hne : (x.dropWhile isSpaceChar).rdropWhile isSpaceChar ≠ [] := by
        intro he
        rw [he] at hh
        cases hh
      have hnot := List.rdropWhile_last_not (l := x.dropWhile isSpaceChar)
        (p := isSpaceChar) hne
      rw [List.getLast?_eq_getLast _ hne] at hh
      injection hh with hh
      rw [hh] at hnot
      exact hnot hc

theorem pyStrip_eq_self (s : PyStr) (h : NoEdgeSpace s) : pyStrip s = s := by
  obtain ⟨h1, h2⟩ := h
  unfold pyStrip
  have hd : s.dropWhile isSpaceChar = s := by
    cases s with
    | nil => rfl
    | cons c t =>
      rw [List.dropWhile_cons, if_neg]
      intro hc
      apply h1
      rw [List.head?_cons]
      simpa using hc
  rw [hd, List.rdropWhile_eq_self_iff]
  intro hl hc
  apply h2
  rw [List.getLast?_eq_getLast s hl]
  simpa using hc

/-! ### C3: idempotence of normalization -/

/-- The eight constants the substring heuristics can return. -/
def heuristicOutputs : List PyStr :=
  [chars (r"Node.js"), chars (r"React"), chars (r"CI/CD"), chars (r"HTML/CSS"),
   chars (r"Machine Learning"), chars (r"Deep Learning"),
   chars (r"Natural Language Processing"), chars (r"REST API")]

set_option maxRecDepth 100000 in
theorem reverseMap_values_fixed :
    ∀ p ∈ reverseMap, SkillNormalizer.normalize p.2 = p.2 := by decide

set_option maxRecDepth 100000 in
theorem heuristicOutputs_fixed :
    ∀ c ∈ heuristicOutputs, SkillNormalizer.normalize c = c := by decide

theorem heuristicRules_mem (cl c : PyStr) (h : heuristicRules cl = some c) :
    c ∈ heuristicOutputs := by
  unfold heuristicRules at h
  repeat' split at h
  any_goals exact Option.noConfusion h
  all_goals
    rw [Option.some.injEq] at h
    subst h
    simp [heuristicOutputs]

theorem normalize_eq_lookup (x c : PyStr)
    (h : lookupCanonical (pyLower (pyStrip x)) = some c) :
    SkillNormalizer.normalize x = c := by
  unfold SkillNormalizer.normalize
  rw [h]

theorem normalize_eq_heuristic (x c : PyStr)
    (h1 : lookupCanonical (pyLower (pyStrip x)) = none)
    (h2 : heuristicRules (pyLower (pyStrip x)) = some c) :
    SkillNormalizer.normalize x = c := by
  unfold SkillNormalizer.normalize
  rw [h1, h2]

theorem normalize_eq_title (x : PyStr)
    (h1 : lookupCanonical (pyLower (pyStrip x)) = none)
    (h2 : heuristicRules (pyLower (pyStrip x)) = none) :
    SkillNormalizer.normalize x = pyTitle (pyStrip x) := by
  unfold SkillNormalizer.normalize
  rw [h1, h2]

/-- C3: skill-name normalization is idempotent —
`normalize (normalize x) = normalize x` for every input string, under the
reverse synonym map (one canonical target per raw string, canonicals fixed
by the map) modelled from the spec. -/
theorem C3_normalize_idempotent (x : PyStr) :
    SkillNormalizer.normalize (SkillNormalizer.normalize x) =
      SkillNormalizer.normalize x := by
  cases hl : lookupCanonical (pyLower (pyStrip x)) with
  | some c =>
    rw [normalize_eq_lookup x c hl]
    have hmem : ∃ p ∈ reverseMap, p.2 = c := by
      unfold lookupCanonical at hl
      cases hf : reverseMap.find? (fun p => p.1 == pyLower (pyStrip x)) with
      | none => rw [hf] at hl; cases hl
      | some p =>
        rw [hf] at hl
        refine ⟨p, List.mem_of_find?_eq_some hf, ?_⟩
        simpa using hl
    obtain ⟨p, hp, hpc⟩ := hmem
    rw [← hpc]
    exact reverseMap_values_fixed p hp
  | none =>
    cases hh : heuristicRules (pyLower (pyStrip x)) with
    | some c =>
      rw [normalize_eq_heuristic x c hl hh]
      exact heuristicOutputs_fixed c (heuristicRules_mem _ c hh)
    | none =>
      rw [normalize_eq_title x hl hh]
      have hne := noEdgeSpace_pyStrip x
      have hstrip : pyStrip (pyTitle (pyStrip x)) = pyTitle (pyStrip x) :=
        pyStrip_eq_self _ (noEdgeSpace_titleMap false _ hne)
      have hkey : pyLower (pyStrip (pyTitle (pyStrip x))) = pyLower (pyStrip x) := by
        rw [hstrip]
        exact pyLower_titleMap (pyStrip x) false
      rw [normalize_eq_title (pyTitle (pyStrip x)) (by rw [hkey]; exact hl)
        (by rw [hkey]; exact hh)]
      rw [hstrip]
      exact titleMap_titleMap (pyStrip x) false
